import Mathlib

/-!
# SPSPS (Stacy's Pathetically Simple Parsing System): a shallow embedding

This file embeds the core of the SPSPS C library — the UTF-8 codec
(utf8.c), the immutable/mutable string type (xstring.c) and the stream
parser (parser.c) — as executable Lean definitions, and proves or refutes
the frozen specification claims about them.

Modelling conventions:
* C `char`/byte values are `Nat`s; the end-of-file sentinel `SPSPS_EOF`,
  written `(char)-1` in the source, is the byte `0xFF = 255`.
* A C string argument (`utf8_string` measured with `strlen`) is a
  `List Nat` of its bytes *before* the terminating NUL, so `strlen`
  is `List.length`.
* Uninitialised heap memory (`malloc` contents) is passed in explicitly
  as a function parameter `g`; byte buffers are total functions
  `Nat → Nat` and a `memcpy` is a pointwise functional update.
* Out-parameters (`size_t * used`) become extra components of the result.
* `uint16_t`/`uint32_t` counters wrap with explicit `% 65536` /
  `% 4294967296`.
-/

set_option maxHeartbeats 1000000

namespace Spsps

/-! ## UTF-8 codec (utf8.c) -/

/-- `utf8encode` (utf8.c).  Returns the list of bytes actually written to the
7-byte zeroed output buffer together with the `*used` out-parameter.  The
source's branch boundaries are kept verbatim — in particular the three-byte
branch really tests `code_point < 0x1000`, not `0x10000`. -/
def utf8encode (code_point : Nat) : List Nat × Nat :=
  if code_point < 0x80 then
    ([code_point], 1)
  else if code_point < 0x800 then
    ([(code_point >>> 6) + 0xc0,
      (code_point &&& 0x3f) + 0x80], 2)
  else if code_point < 0x1000 then
    ([(code_point >>> 12) + 0xe0,
      ((code_point >>> 6) &&& 0x3f) + 0x80,
      (code_point &&& 0x3f) + 0x80], 3)
  else if code_point < 0x110000 then
    ([(code_point >>> 18) + 0xf0,
      ((code_point >>> 12) &&& 0x3f) + 0x80,
      ((code_point >>> 6) &&& 0x3f) + 0x80,
      (code_point &&& 0x3f) + 0x80], 4)
  else
    ([], 0)

/-- `utf8encode_size` (utf8.c), with the same `< 0x1000` three-byte bound
as `utf8encode`. -/
def utf8encode_size (code_point : Nat) : Nat :=
  if code_point < 0x80 then 1
  else if code_point < 0x800 then 2
  else if code_point < 0x1000 then 3
  else if code_point < 0x110000 then 4
  else 0

/-- The `BADUTF8` macro from utf8.c: tag the offending byte as `0xDCHH`. -/
def BADUTF8 (m_byte : Nat) : Nat := 0xDC00 ||| m_byte

/-- `utf8decode` (utf8.c) on a non-NULL input.  `input` is the pointed-to
buffer (at least four addressable bytes, as the header requires); `used0`
is the value behind the `size_t * used` out-parameter *before* the call,
because in the final `>= 0xF8` branch the source returns without writing
`*used`.  Result is `(code_point, *used after the call)`. -/
def utf8decode (input : Nat → Nat) (used0 : Nat) : Nat × Nat :=
  if input 0 < 0x80 then
    (input 0, 1)
  else if input 0 < 0xC0 then
    (0xDC00 ||| input 0, 0)
  else if input 0 < 0xE0 then
    if (input 1 &&& 0xC0) ≠ 0x80 then (BADUTF8 (input 1), 1)
    else (((input 0 &&& 0x1F) <<< 6) ||| (input 1 &&& 0x3F), 2)
  else if input 0 < 0xF0 then
    if (input 1 &&& 0xC0) ≠ 0x80 then (BADUTF8 (input 1), 1)
    else if (input 2 &&& 0xC0) ≠ 0x80 then (BADUTF8 (input 2), 2)
    else (((input 0 &&& 0x07) <<< 12) |||
          ((input 1 &&& 0x3F) <<< 6) |||
          (input 2 &&& 0x3F), 3)
  else if input 0 < 0xF8 then
    if (input 1 &&& 0xC0) ≠ 0x80 then (BADUTF8 (input 1), 1)
    else if (input 2 &&& 0xC0) ≠ 0x80 then (BADUTF8 (input 2), 2)
    else if (input 3 &&& 0xC0) ≠ 0x80 then (BADUTF8 (input 3), 3)
    else (((input 0 &&& 0x07) <<< 18) |||
          ((input 1 &&& 0x3F) <<< 12) |||
          ((input 2 &&& 0x3F) <<< 6) |||
          (input 3 &&& 0x3F), 4)
  else
    (BADUTF8 (input 0), used0)

/-- `utf8decode_size` (utf8.c) on a non-NULL input. -/
def utf8decode_size (input : Nat → Nat) : Nat :=
  if input 0 < 0x80 then 1
  else if input 0 < 0xC0 then 1
  else if input 0 < 0xE0 then
    if (input 1 &&& 0xC0) ≠ 0x80 then 1 else 2
  else if input 0 < 0xF0 then
    if (input 1 &&& 0xC0) ≠ 0x80 then 1
    else if (input 2 &&& 0xC0) ≠ 0x80 then 2
    else 3
  else if input 0 < 0xF8 then
    if (input 1 &&& 0xC0) ≠ 0x80 then 1
    else if (input 2 &&& 0xC0) ≠ 0x80 then 2
    else if (input 3 &&& 0xC0) ≠ 0x80 then 3
    else 4
  else 1

/-- View a byte list as the calloc-zeroed buffer it was written into:
bytes past the end read as 0.  `utf8encode`'s output buffer is 7 bytes of
`calloc(7, 1)` of which the first `used` hold the encoding. -/
def bufOf (bytes : List Nat) : Nat → Nat := fun i => bytes.getD i 0

/-- The byte sequence obtained by UTF-8-encoding a whole list of code
points directly, one after the other (the comparison sequence of §8.5 of
the spec, built from the source's own `utf8encode`). -/
def encodeAll (cps : List Nat) : List Nat :=
  (cps.map (fun cp => (utf8encode cp).1)).flatten

/-- The bytes of `utf8encode cp` seen as a C string by `strlen` inside
`xstr_append`/`mstr_append`: the 7-byte buffer is zero beyond the encoded
bytes, so `strlen` keeps the longest NUL-free prefix of the encoding. -/
def encodeCstr (cp : Nat) : List Nat :=
  ((utf8encode cp).1).takeWhile (fun b => b ≠ 0)

/-! ## Strings (xstring.c)

An `xstring` is NULL (the canonical empty value) or a length-counted byte
buffer; we model the value as the list of its `length` bytes, with `[]`
standing for NULL.  An `mstring` is NULL or a non-empty linked chain of
blocks; we model it as a `List MBlock`, `[]` standing for NULL.  Each
block carries its byte buffer (a total function, since the C buffer of
`local_capacity` bytes may be read before being written), the capacity,
the used length, and the `length` field that the source documents as "the
total length of the string from this block forward along the chain". -/

/-- The default block increment `MSTR_INC` (xstring.h). -/
def MSTR_INC : Nat := 64

structure MBlock where
  cstr : Nat → Nat
  local_capacity : Nat
  local_length : Nat
  length : Nat

abbrev mstring := List MBlock

abbrev xstring := List Nat

/-- `mstr_length` (xstring.c): NULL has length 0, otherwise the first
block's `length` field. -/
def mstr_length : mstring → Nat
  | [] => 0
  | b :: _ => b.length

/-- The bytes a chain walk reads: `local_length` bytes from each block in
order (the copy loops of `mstr_cstr`, `mstr_copy`, `mstr_to_xstr`). -/
def mstr_serialize (m : mstring) : List Nat :=
  (m.map (fun b => (List.range b.local_length).map b.cstr)).flatten

/-- `mstr_new` (xstring.c).  `g` is the uninitialised content of the
freshly malloc'd buffer. -/
def mstr_new (capacity : Nat) (g : Nat → Nat) : mstring :=
  let capacity := if capacity = 0 then MSTR_INC else capacity
  [{ cstr := g, local_capacity := capacity, local_length := 0, length := 0 }]

/-- `mstr_wrap` (xstring.c): empty input yields NULL; otherwise one block
of capacity `len + MSTR_INC` holding a copy of the input. -/
def mstr_wrap (g : Nat → Nat) (value : List Nat) : mstring :=
  if value.length = 0 then []
  else [{ cstr := fun i => if i < value.length then value.getD i 0 else g i,
          local_capacity := value.length + MSTR_INC,
          local_length := value.length,
          length := value.length }]

/-- `mstr_copy` (xstring.c): one fresh block holding the serialized bytes
of the whole chain. -/
def mstr_copy (g : Nat → Nat) (other : mstring) : mstring :=
  let len := mstr_length other
  if len = 0 then []
  else [{ cstr := fun i => if i < (mstr_serialize other).length
                           then (mstr_serialize other).getD i 0 else g i,
          local_capacity := len + MSTR_INC,
          local_length := len,
          length := len }]

/-- The chain walk of `mstr_append_cstr` (xstring.c lines 365-390): add
`len` to every block's `length` on the way down; at the tail block either
copy in place (enough excess capacity), or — faithfully reproducing the
source's split path, which increments `local_length` *before* the
`memcpy`, so the partial copy lands at offset `local_length + excess`
instead of `local_length` — take `excess` bytes and chain a fresh block
wrapping the rest. -/
def mstr_append_walk (g : Nat → Nat) (cstr : List Nat) : List MBlock → List MBlock
  | [] => []
  | [here] =>
    let here2 := { here with length := here.length + cstr.length }
    let excess := here.local_capacity - here.local_length
    if excess ≥ cstr.length then
      [{ here2 with
           cstr := fun i =>
             if here.local_length ≤ i ∧ i < here.local_length + cstr.length
             then cstr.getD (i - here.local_length) 0 else here.cstr i,
           local_length := here.local_length + cstr.length }]
    else
      { here2 with
          local_length := here.local_length + excess,
          cstr := fun i =>
            if here.local_length + excess ≤ i ∧ i < here.local_length + 2 * excess
            then cstr.getD (i - (here.local_length + excess)) 0 else here.cstr i }
        :: mstr_wrap g (cstr.drop excess)
  | here :: rest =>
    { here with length := here.length + cstr.length } :: mstr_append_walk g cstr rest

/-- `mstr_append_cstr` (xstring.c): NULL wraps; empty C string is a no-op;
otherwise the chain walk above. -/
def mstr_append_cstr (g : Nat → Nat) (value : mstring) (cstr : List Nat) : mstring :=
  match value with
  | [] => mstr_wrap g cstr
  | v => if cstr.length = 0 then v else mstr_append_walk g cstr v

/-- `mstr_append` (xstring.c): encode the code point, then append the
encoding viewed as a C string. -/
def mstr_append (g : Nat → Nat) (value : mstring) (ch : Nat) : mstring :=
  mstr_append_cstr g value (encodeCstr ch)

/-- The chain walk of `mstr_concat` (xstring.c lines 426-438): add the
second string's length to every block of the first; at the tail, truncate
its capacity to its used length and splice the second chain on. -/
def mstr_concat_walk (slen : Nat) (second : mstring) : List MBlock → List MBlock
  | [] => []
  | [here] =>
    { here with length := here.length + slen, local_capacity := here.local_length }
      :: second
  | here :: rest =>
    { here with length := here.length + slen } :: mstr_concat_walk slen second rest

/-- `mstr_concat` (xstring.c): either operand NULL short-circuits;
otherwise splice `second`'s chain onto `first`'s. -/
def mstr_concat : mstring → mstring → mstring
  | first, [] => first
  | [], second => second
  | first, second => mstr_concat_walk (mstr_length second) second first

/-- `mstr_cstr` (xstring.c): NULL or zero length yields the empty buffer,
otherwise the serialized chain (the NUL terminator the C code places at
offset `length` is not part of the value). -/
def mstr_cstr (value : mstring) : List Nat :=
  if mstr_length value = 0 then [] else mstr_serialize value

/-- `xstr_wrap` (xstring.c): copies `strlen` bytes, NULL/empty gives NULL. -/
def xstr_wrap (value : List Nat) : xstring :=
  if value.length = 0 then [] else value

/-- `xstr_append_cstr` (xstring.c). -/
def xstr_append_cstr (value : xstring) (cstr : List Nat) : xstring :=
  match value with
  | [] => xstr_wrap cstr
  | v => if cstr.length = 0 then v else v ++ cstr

/-- `xstr_append` (xstring.c). -/
def xstr_append (value : xstring) (ch : Nat) : xstring :=
  xstr_append_cstr value (encodeCstr ch)

/-- Sum of the used lengths of all blocks of a chain. -/
def sumLocal (m : mstring) : Nat := (m.map (fun b => b.local_length)).sum

/-- The mutable-string invariant of the spec (§3): the stored total
length equals the sum of the used lengths of the blocks, every block
except possibly the last is full, and no block uses more than its
capacity. -/
def MInv (m : mstring) : Prop :=
  mstr_length m = sumLocal m ∧
  (∀ b ∈ m.dropLast, b.local_length = b.local_capacity) ∧
  (∀ b ∈ m, b.local_length ≤ b.local_capacity)

/-! ## Stream parser (parser.c)

The parser state mirrors the C struct: two `SPSPS_LOOK`-byte buffers
(`blocks`, indexed by the active-block bit), a cursor `next` into the
active buffer, the remaining unread bytes of the `FILE *` (`stream`),
line/column bookkeeping, the EOF flag and the two stall counters.
`SPSPS_CHAR` is `char`, so characters are bytes and the end-of-file
sentinel `(char)-1` is the byte `0xFF`. -/

inductive spsps_errno where
  | OK
  | LOOKAHEAD_TOO_LARGE
  | STALLED_AT_EOF
  | STALLED
deriving DecidableEq, Repr

def SPSPS_LOOK : Nat := 4096

def SPSPS_EOF : Nat := 0xFF

structure Parser where
  at_eof : Bool
  block : Bool
  blocks : Bool → Nat → Nat
  eof_count : Nat
  look_count : Nat
  name : String
  next : Nat
  stream : List Nat
  column : Nat
  line : Nat
  errno : spsps_errno

attribute [ext] Parser

structure Loc where
  name : String
  line : Nat
  column : Nat
deriving DecidableEq, Repr

/-- `spsps_read_other_` (parser.c): `fread` up to `SPSPS_LOOK` bytes into
the inactive buffer and pad a short read with the EOF sentinel. -/
def spsps_read_other_ (p : Parser) : Parser :=
  let count := min SPSPS_LOOK p.stream.length
  { p with
      blocks := fun b i =>
        if b = !p.block then (if i < count then p.stream.getD i 0 else SPSPS_EOF)
        else p.blocks b i,
      stream := p.stream.drop SPSPS_LOOK }

/-- `spsps_look_` (parser.c): bounded lookahead with the no-progress
watchdog.  Returns the character and the updated state. -/
def spsps_look_ (p : Parser) (n : Nat) : Nat × Parser :=
  if n ≥ SPSPS_LOOK then (0, { p with errno := .LOOKAHEAD_TOO_LARGE })
  else
    let p := { p with look_count := (p.look_count + 1) % 65536 }
    if p.look_count > 1000 then (SPSPS_EOF, { p with errno := .STALLED })
    else if n + p.next < SPSPS_LOOK then (p.blocks p.block (n + p.next), p)
    else (p.blocks (!p.block) (n + p.next - SPSPS_LOOK), p)

/-- `spsps_new` (parser.c).  The malloc'd buffers start uninitialised;
their content is the parameter `g`. -/
def spsps_new (name : String) (stream : List Nat) (g : Bool → Nat → Nat) : Parser :=
  { at_eof := false, block := false, blocks := g, eof_count := 0,
    look_count := 0, name := name, next := 0, stream := stream,
    column := 1, line := 1, errno := .OK }

/-- The lazy first fill performed on first access by the second variant of
parser.c in this repository (src/unnamed/part_002): read one block and
make it the active one.  `spsps_new` in src/c/parser.c allocates the
buffers without filling them; this is the documented "fill the first
buffer on first access" step. -/
def spsps_init_ (p : Parser) : Parser :=
  let p := spsps_read_other_ p
  { p with block := !p.block }

/-- The body of the `for` loop of `spsps_consume_n` (parser.c lines
204-214) in the non-EOF case: bump column, handle newline, advance the
cursor, and swap-and-refill the buffers when the cursor runs off the
active block. -/
def spsps_consume_step (p : Parser) : Parser :=
  let p := { p with column := (p.column + 1) % 4294967296 }
  let p := if p.blocks p.block p.next = 10
           then { p with line := (p.line + 1) % 4294967296, column := 1 }
           else p
  let p := { p with next := p.next + 1 }
  if p.next ≥ SPSPS_LOOK
  then spsps_read_other_ { p with next := p.next - SPSPS_LOOK, block := !p.block }
  else p

/-- The `for` loop of `spsps_consume_n` (parser.c lines 199-215): stop
(setting `at_eof`) on the EOF sentinel, otherwise run the loop body and
continue. -/
def spsps_consume_loop : Parser → Nat → Parser
  | p, 0 => p
  | p, n + 1 =>
    if p.blocks p.block p.next = SPSPS_EOF then { p with at_eof := true }
    else spsps_consume_loop (spsps_consume_step p) n

/-- `spsps_consume_n` (parser.c): lookahead bound check, reset of the
no-progress counter, the stalled-at-EOF watchdog, then the consume loop. -/
def spsps_consume_n (p : Parser) (n : Nat) : Parser :=
  if n ≥ SPSPS_LOOK then { p with errno := .LOOKAHEAD_TOO_LARGE }
  else
    let p := { p with errno := .OK, look_count := 0 }
    if p.at_eof then
      let p := { p with eof_count := (p.eof_count + 1) % 65536 }
      if p.eof_count > 1000 then { p with errno := .STALLED_AT_EOF }
      else spsps_consume_loop p n
    else spsps_consume_loop p n

/-- `spsps_consume` (parser.c): grab the character under the cursor,
consume one, and then unconditionally store `OK` in the last-error field. -/
def spsps_consume (p : Parser) : Nat × Parser :=
  let ch := p.blocks p.block p.next
  let p := spsps_consume_n p 1
  (ch, { p with errno := .OK })

/-- `spsps_eof` (parser.c). -/
def spsps_eof (p : Parser) : Bool × Parser :=
  (p.at_eof, { p with errno := .OK })

/-- `spsps_loc` (parser.c). -/
def spsps_loc (p : Parser) : Loc × Parser :=
  ({ name := p.name, line := p.line, column := p.column },
   { p with errno := .OK })

/-- `spsps_peek` (parser.c). -/
def spsps_peek (p : Parser) : Nat × Parser :=
  spsps_look_ { p with errno := .OK } 0

/-- The scan loop of `spsps_peek_str` (parser.c lines 277-279), with the
state threaded through each `spsps_look_` call. -/
def spsps_peek_str_loop : Parser → List Nat → Nat → Bool × Parser
  | p, [], _ => (true, p)
  | p, c :: rest, index =>
    let (ch, p1) := spsps_look_ p index
    if c ≠ ch then (false, p1)
    else spsps_peek_str_loop p1 rest (index + 1)

/-- `spsps_peek_str` (parser.c).  `next` is the needle's `strlen` bytes. -/
def spsps_peek_str (p : Parser) (next : List Nat) : Bool × Parser :=
  if next.length ≥ SPSPS_LOOK then (false, { p with errno := .LOOKAHEAD_TOO_LARGE })
  else spsps_peek_str_loop { p with errno := .OK } next 0

/-- `spsps_peek_and_consume` (parser.c). -/
def spsps_peek_and_consume (p : Parser) (next : List Nat) : Bool × Parser :=
  let p := { p with errno := .OK }
  let (b, p1) := spsps_peek_str p next
  if b then (true, spsps_consume_n p1 next.length)
  else (false, p1)

/-- The four whitespace bytes of the `" \t\r\n"` literal in
`spsps_consume_whitespace` (parser.c line 221). -/
def spsps_ws_chars : List Nat := [0x20, 0x09, 0x0D, 0x0A]

/-- The `while (strchr(" \t\r\n", spsps_peek(parser)) != NULL)` loop of
`spsps_consume_whitespace`, fuelled.  Per C11 7.24.5.2 `strchr` also finds
the terminating NUL of the haystack, so the guard succeeds on the byte 0
as well — this is kept faithfully. -/
def spsps_ws_loop : Nat → Parser → Parser
  | 0, p => p
  | fuel + 1, p =>
    let (ch, p1) := spsps_peek p
    if ch ∈ spsps_ws_chars ∨ ch = 0 then spsps_ws_loop fuel (spsps_consume p1).2
    else { p1 with errno := .OK }

/-- `spsps_consume_whitespace` (parser.c).  The supplied fuel bounds the
iteration count: each guarded iteration consumes one character, and after
at most the two buffers plus the whole remaining stream the parser serves
only EOF sentinels, on which the guard fails. -/
def spsps_consume_whitespace (p : Parser) : Parser :=
  spsps_ws_loop (p.stream.length + 2 * SPSPS_LOOK + 2) p

/-! ### Observation functions for the parser -/

/-- The infinite sequence of characters the parser will serve from a given
state: the rest of the active buffer, then the inactive buffer, then the
remaining stream bytes, then EOF sentinels forever. -/
def remaining (p : Parser) (i : Nat) : Nat :=
  if i < SPSPS_LOOK - p.next then p.blocks p.block (p.next + i)
  else if i - (SPSPS_LOOK - p.next) < SPSPS_LOOK then
    p.blocks (!p.block) (i - (SPSPS_LOOK - p.next))
  else if i - (SPSPS_LOOK - p.next) - SPSPS_LOOK < p.stream.length then
    p.stream.getD (i - (SPSPS_LOOK - p.next) - SPSPS_LOOK) 0
  else SPSPS_EOF

/-- The next `n` lookahead characters. -/
def nextChars (p : Parser) (n : Nat) : List Nat :=
  (List.range n).map (remaining p)

/-- The effect of consuming one character `ch` on the `(line, column)`
pair, as performed by the consume loop. -/
def advanceLC (lc : Nat × Nat) (ch : Nat) : Nat × Nat :=
  if ch = 10 then ((lc.1 + 1) % 4294967296, 1)
  else (lc.1, (lc.2 + 1) % 4294967296)

/-! ### Concrete states used by witnesses and counterexamples -/

/-- Zeroed memory, for pinning down uninitialised buffers in closed
statements. -/
def zeroMem : Bool → Nat → Nat := fun _ _ => 0

/-- A parser that has read the five input bytes `"ab\ncd"` into its first
buffer (scenario of §8.6 of the spec). -/
def c6p (g : Bool → Nat → Nat) : Parser :=
  spsps_init_ (spsps_new "doc" [97, 98, 10, 99, 100] g)

/-- A parser on an empty input that has consumed the EOF sentinel once:
`at_eof` is set and `eof_count` is 0. -/
def c5base : Parser :=
  (spsps_consume (spsps_init_ (spsps_new "eof" [] zeroMem))).2

/-- One `spsps_consume` call, keeping only the state. -/
def consumeStep (p : Parser) : Parser := (spsps_consume p).2

/-- One `spsps_peek` call, keeping only the state. -/
def peekStep (p : Parser) : Parser := (spsps_peek p).2

/-- A parser whose upcoming input is the byte `'a'` but whose no-progress
counter already sits at the stall threshold (the state reached after 1000
consecutive peeks). -/
def c7stall : Parser :=
  { at_eof := false, block := false,
    blocks := fun b i => if b then SPSPS_EOF else (if i = 0 then 97 else SPSPS_EOF),
    eof_count := 0, look_count := 1000, name := "cx", next := 0,
    stream := [], column := 1, line := 1, errno := .OK }

/-- Same state as `c7stall` but with the no-progress counter at 0. -/
def c7ok : Parser :=
  { c7stall with look_count := 0 }

/-- A parser whose next input byte is NUL, followed by `'a'`. -/
def c4p : Parser :=
  spsps_init_ (spsps_new "nul" [0, 97] zeroMem)

/-! ## Helper lemmas -/

theorem lor_eq_add {a r k : Nat} (ha : ∃ q, a = 2 ^ k * q) (h : r < 2 ^ k) :
    a ||| r = a + r := by
  obtain ⟨q, rfl⟩ := ha
  exact (Nat.mul_add_lt_is_or h q).symm

theorem and_63_eq_mod (x : Nat) : x &&& 63 = x % 64 := by
  simpa using Nat.and_pow_two_sub_one_eq_mod x 6

theorem add_128_and_192 : ∀ r < 64, (r + 128) &&& 192 = 128 := by decide

theorem add_192_and_31 : ∀ q < 32, (q + 192) &&& 31 = q := by decide

theorem add_240_and_7 : ∀ h < 8, (h + 240) &&& 7 = h := by decide

/-! ## Claim theorems -/

/-- C2: the claim's boundary table says `utf8encode` emits 3 bytes for
`0x800 ≤ cp < 0x10000`; the code's three-byte branch instead tests
`cp < 0x1000`, so at the failing input `0x1000` both `utf8encode` and
`utf8encode_size` report 4 bytes (and the emitted sequence is the overlong
`F0 81 80 80`), contradicting the RFC 3629 table reproduced in the
source's own comment. -/
theorem C2_encode_boundary_bug :
    utf8encode 0x1000 = ([0xF0, 0x81, 0x80, 0x80], 4) ∧
    utf8encode_size 0x1000 = 4 ∧ utf8encode_size 0x1000 ≠ 3 := by
  decide

/-- C10: appending the code point 0 with `xstr_append` or `mstr_append`
returns the string unchanged, because the encoded character is measured
with `strlen`, which sees the single NUL byte as the empty C string. -/
theorem C10_append_nul_noop (v : xstring) (g : Nat → Nat) (m : mstring) :
    xstr_append v 0 = v ∧ mstr_append g m 0 = m := by
  have he : encodeCstr 0 = [] := by decide
  constructor
  · cases v with
    | nil => simp [xstr_append, xstr_append_cstr, he, xstr_wrap]
    | cons a l => simp [xstr_append, xstr_append_cstr, he]
  · cases m with
    | nil => simp [mstr_append, mstr_append_cstr, he, mstr_wrap]
    | cons a l => simp [mstr_append, mstr_append_cstr, he]

/-- C8: for every buffer whose leading byte lies in `[0x80, 0xC0)`,
`utf8decode` returns the bad-byte sentinel `0xDC00 ||| byte` with
`consumed = 0` (whatever the out-parameter held before), while
`utf8decode_size` returns 1 for the same input. -/
theorem C8_bad_byte_asymmetry (input : Nat → Nat) (used0 : Nat)
    (h1 : 0x80 ≤ input 0) (h2 : input 0 < 0xC0) :
    utf8decode input used0 = (0xDC00 ||| input 0, 0) ∧
    utf8decode_size input = 1 := by
  unfold utf8decode utf8decode_size
  rw [if_neg (by omega), if_pos h2, if_neg (by omega), if_pos h2]
  exact ⟨rfl, rfl⟩

/-- Witness for C8 at the concrete buffer all of whose bytes are `0x80`. -/
theorem C8_bad_byte_asymmetry_witness :
    utf8decode (fun _ => 0x80) 0 = (0xDC00 ||| 0x80, 0) ∧
    utf8decode_size (fun _ => 0x80) = 1 :=
  C8_bad_byte_asymmetry (fun _ => 0x80) 0 (by decide) (by decide)

/-- C1: the split-write path of `mstr_append_cstr` increments
`local_length` before the `memcpy`, so when an append crosses a block
boundary the bytes meant for the tail's remaining space land one `excess`
too far (out of bounds) and the result exposes an uninitialised byte.
Failing input: a 4-byte block holding `"aaa"`, then appending U+00A2
(encoded `C2 A2`).  With zeroed fresh memory `mstr_cstr` yields
`61 61 61 00 A2` instead of the direct encoding `61 61 61 C2 A2`. -/
theorem C1_append_split_bug :
    mstr_cstr
        (mstr_append (fun _ => 0)
          (mstr_append (fun _ => 0)
            (mstr_append (fun _ => 0)
              (mstr_append (fun _ => 0) (mstr_new 4 (fun _ => 0)) 97) 97) 97)
          0xA2)
      = [97, 97, 97, 0, 0xA2] ∧
    encodeAll [97, 97, 97, 0xA2] = [97, 97, 97, 0xC2, 0xA2] ∧
    ([97, 97, 97, 0, 0xA2] : List Nat) ≠ [97, 97, 97, 0xC2, 0xA2] := by
  decide

theorem remaining_zero (p : Parser) (h : p.next < SPSPS_LOOK) :
    remaining p 0 = p.blocks p.block p.next := by
  unfold remaining
  rw [if_pos (by omega)]
  norm_num

theorem remaining_lookup_lo (p : Parser) (n : Nat) (h : n + p.next < SPSPS_LOOK) :
    remaining p n = p.blocks p.block (n + p.next) := by
  unfold remaining
  rw [if_pos (by omega)]
  congr 1
  omega

theorem remaining_lookup_hi (p : Parser) (n : Nat) (h1 : p.next < SPSPS_LOOK)
    (h2 : SPSPS_LOOK ≤ n + p.next) (h3 : n < SPSPS_LOOK) :
    remaining p n = p.blocks (!p.block) (n + p.next - SPSPS_LOOK) := by
  unfold remaining
  rw [if_neg (by omega), if_pos (by omega),
      show n - (SPSPS_LOOK - p.next) = n + p.next - SPSPS_LOOK from by omega]

/-- `nextChars` for one more character, as a cons. -/
theorem nextChars_succ (p : Parser) (n : Nat) :
    nextChars p (n + 1)
      = remaining p 0 :: (List.range n).map (fun i => remaining p (i + 1)) := by
  unfold nextChars
  rw [List.range_succ_eq_map, List.map_cons, List.map_map]
  rfl

/-- The loop body does not touch the EOF flag, the counters, the error
field or the name. -/
theorem consume_step_frame (p : Parser) :
    (spsps_consume_step p).at_eof = p.at_eof ∧
    (spsps_consume_step p).errno = p.errno ∧
    (spsps_consume_step p).look_count = p.look_count ∧
    (spsps_consume_step p).eof_count = p.eof_count ∧
    (spsps_consume_step p).name = p.name := by
  by_cases hnl : p.blocks p.block p.next = 10 <;>
    by_cases hw : p.next + 1 ≥ SPSPS_LOOK <;>
      simp [spsps_consume_step, spsps_read_other_, hnl, hw]

/-- The loop body updates line and column exactly as `advanceLC`. -/
theorem consume_step_lc (p : Parser) :
    ((spsps_consume_step p).line, (spsps_consume_step p).column)
      = advanceLC (p.line, p.column) (p.blocks p.block p.next) := by
  by_cases hnl : p.blocks p.block p.next = 10 <;>
    by_cases hw : p.next + 1 ≥ SPSPS_LOOK <;>
      simp [spsps_consume_step, spsps_read_other_, advanceLC, hnl, hw]

/-- The loop body keeps the cursor inside the active buffer. -/
theorem consume_step_next (p : Parser) (h : p.next < SPSPS_LOOK) :
    (spsps_consume_step p).next < SPSPS_LOOK := by
  have hval : SPSPS_LOOK = 4096 := rfl
  by_cases hnl : p.blocks p.block p.next = 10 <;>
    by_cases hw : p.next + 1 ≥ SPSPS_LOOK <;>
      simp [spsps_consume_step, spsps_read_other_, hnl, hw] <;>
        omega

/-- The loop body shifts the upcoming-character sequence by one. -/
theorem consume_step_remaining (p : Parser) (h1 : p.next < SPSPS_LOOK) (i : Nat) :
    remaining (spsps_consume_step p) i = remaining p (i + 1) := by
  have hb : (spsps_consume_step p).blocks = (if p.next + 1 ≥ SPSPS_LOOK then
      (fun b j => if b = p.block
        then (if j < min SPSPS_LOOK p.stream.length then p.stream.getD j 0 else SPSPS_EOF)
        else p.blocks b j)
      else p.blocks) := by
    by_cases hnl : p.blocks p.block p.next = 10 <;>
      by_cases hw : p.next + 1 ≥ SPSPS_LOOK <;>
        simp [spsps_consume_step, spsps_read_other_, hnl, hw]
  have hbk : (spsps_consume_step p).block
      = (if p.next + 1 ≥ SPSPS_LOOK then !p.block else p.block) := by
    by_cases hnl : p.blocks p.block p.next = 10 <;>
      by_cases hw : p.next + 1 ≥ SPSPS_LOOK <;>
        simp [spsps_consume_step, spsps_read_other_, hnl, hw]
  have hn : (spsps_consume_step p).next
      = (if p.next + 1 ≥ SPSPS_LOOK then p.next + 1 - SPSPS_LOOK else p.next + 1) := by
    by_cases hnl : p.blocks p.block p.next = 10 <;>
      by_cases hw : p.next + 1 ≥ SPSPS_LOOK <;>
        simp [spsps_consume_step, spsps_read_other_, hnl, hw]
  have hs : (spsps_consume_step p).stream
      = (if p.next + 1 ≥ SPSPS_LOOK then p.stream.drop SPSPS_LOOK else p.stream) := by
    by_cases hnl : p.blocks p.block p.next = 10 <;>
      by_cases hw : p.next + 1 ≥ SPSPS_LOOK <;>
        simp [spsps_consume_step, spsps_read_other_, hnl, hw]
  by_cases hw : p.next + 1 ≥ SPSPS_LOOK
  · -- wrap: the cursor ran off the active buffer, which was refilled
    have hnx : p.next + 1 = SPSPS_LOOK := by omega
    rw [if_pos hw] at hb hbk hn hs
    have hn0 : (spsps_consume_step p).next = 0 := by omega
    have hbne : ¬((!p.block) = p.block) := by simp
    unfold remaining
    rw [hb, hbk, hn0, hs, show SPSPS_LOOK - p.next = 1 from by omega]
    simp only [Nat.sub_zero, Nat.zero_add, Bool.not_not, List.length_drop,
      Nat.add_sub_cancel]
    have c3 : ¬(i + 1 < 1) := by omega
    rcases Nat.lt_or_ge i SPSPS_LOOK with hA | hA
    · rw [if_pos hA, if_neg hbne, if_neg c3, if_pos hA]
    · have c1 : ¬(i < SPSPS_LOOK) := by omega
      rcases Nat.lt_or_ge (i - SPSPS_LOOK) SPSPS_LOOK with hB | hB
      · rw [if_neg c1, if_pos hB, if_true, if_neg c3, if_neg c1]
        rcases Nat.lt_or_ge (i - SPSPS_LOOK) p.stream.length with hC | hC
        · rw [if_pos (by omega), if_pos hC]
        · rw [if_neg (by omega), if_neg (by omega)]
      · have c2 : ¬(i - SPSPS_LOOK < SPSPS_LOOK) := by omega
        rw [if_neg c1, if_neg c2, if_neg c3, if_neg c1]
        rcases Nat.lt_or_ge (i - SPSPS_LOOK - SPSPS_LOOK)
            (p.stream.length - SPSPS_LOOK) with hC | hC
        · rw [if_pos hC, if_pos (by omega)]
          rw [List.getD_eq_getElem?_getD, List.getD_eq_getElem?_getD,
              List.getElem?_drop,
              show SPSPS_LOOK + (i - SPSPS_LOOK - SPSPS_LOOK) = i - SPSPS_LOOK
                from by omega]
        · rw [if_neg (by omega), if_neg (by omega)]
  · -- no wrap: only the cursor moved
    rw [if_neg hw] at hb hbk hn hs
    unfold remaining
    rw [hb, hbk, hn, hs]
    rcases Nat.lt_or_ge i (SPSPS_LOOK - (p.next + 1)) with hA | hA
    · rw [if_pos hA, if_pos (show i + 1 < SPSPS_LOOK - p.next from by omega),
          show p.next + 1 + i = p.next + (i + 1) from by omega]
    · have d1 : ¬(i < SPSPS_LOOK - (p.next + 1)) := by omega
      have d2 : ¬(i + 1 < SPSPS_LOOK - p.next) := by omega
      rcases Nat.lt_or_ge (i - (SPSPS_LOOK - (p.next + 1))) SPSPS_LOOK with hB | hB
      · rw [if_neg d1, if_pos hB, if_neg d2,
            if_pos (show i + 1 - (SPSPS_LOOK - p.next) < SPSPS_LOOK from by omega),
            show i - (SPSPS_LOOK - (p.next + 1)) = i + 1 - (SPSPS_LOOK - p.next)
              from by omega]
      · have d3 : ¬(i - (SPSPS_LOOK - (p.next + 1)) < SPSPS_LOOK) := by omega
        have d4 : ¬(i + 1 - (SPSPS_LOOK - p.next) < SPSPS_LOOK) := by omega
        rw [if_neg d1, if_neg d3, if_neg d2, if_neg d4,
            show i - (SPSPS_LOOK - (p.next + 1)) - SPSPS_LOOK
              = i + 1 - (SPSPS_LOOK - p.next) - SPSPS_LOOK from by omega]

/-- Full specification of the consume loop when none of the next `n`
characters is the EOF sentinel: the upcoming-character sequence shifts by
`n`, the cursor stays inside the buffer, line/column fold `advanceLC`
over the consumed characters, and all other fields are untouched. -/
theorem consume_loop_spec (n : Nat) : ∀ (p : Parser),
    p.next < SPSPS_LOOK →
    (∀ i, i < n → remaining p i ≠ SPSPS_EOF) →
    (∀ i, remaining (spsps_consume_loop p n) i = remaining p (i + n)) ∧
    (spsps_consume_loop p n).next < SPSPS_LOOK ∧
    ((spsps_consume_loop p n).line, (spsps_consume_loop p n).column)
      = (nextChars p n).foldl advanceLC (p.line, p.column) ∧
    (spsps_consume_loop p n).at_eof = p.at_eof ∧
    (spsps_consume_loop p n).errno = p.errno ∧
    (spsps_consume_loop p n).look_count = p.look_count ∧
    (spsps_consume_loop p n).eof_count = p.eof_count ∧
    (spsps_consume_loop p n).name = p.name := by
  induction n with
  | zero =>
    intro p h1 _
    refine ⟨fun i => rfl, h1, ?_, rfl, rfl, rfl, rfl, rfl⟩
    simp [nextChars, spsps_consume_loop]
  | succ n ih =>
    intro p h1 h2
    have hc : p.blocks p.block p.next ≠ SPSPS_EOF := by
      rw [← remaining_zero p h1]
      exact h2 0 (Nat.succ_pos n)
    have hloop : spsps_consume_loop p (n + 1)
        = spsps_consume_loop (spsps_consume_step p) n := by
      rw [spsps_consume_loop, if_neg hc]
    have hsh := consume_step_remaining p h1
    have hrec := ih (spsps_consume_step p) (consume_step_next p h1)
      (fun i hi => by rw [hsh i]; exact h2 (i + 1) (by omega))
    obtain ⟨r1, r2, r3, r4, r5, r6, r7, r8⟩ := hrec
    obtain ⟨f1, f2, f3, f4, f5⟩ := consume_step_frame p
    rw [hloop]
    refine ⟨?_, r2, ?_, by rw [r4, f1], by rw [r5, f2], by rw [r6, f3],
      by rw [r7, f4], by rw [r8, f5]⟩
    · intro i
      rw [r1 i, hsh (i + n), show i + n + 1 = i + (n + 1) from by omega]
    · rw [r3]
      have hnc : nextChars (spsps_consume_step p) n
          = (List.range n).map (fun i => remaining p (i + 1)) := by
        unfold nextChars
        exact List.map_congr_left (fun i _ => hsh i)
      rw [hnc, nextChars_succ, List.foldl_cons]
      have hlc := consume_step_lc p
      rw [hlc, remaining_zero p h1]

/-- Full specification of `spsps_consume_n` under the same conditions,
provided the parser is not in the stalled-at-EOF regime. -/
theorem consume_n_spec (p : Parser) (n : Nat)
    (h0 : n < SPSPS_LOOK)
    (h1 : p.next < SPSPS_LOOK)
    (h2 : ∀ i, i < n → remaining p i ≠ SPSPS_EOF)
    (h3 : ¬(p.at_eof = true ∧ 1000 ≤ p.eof_count)) :
    (∀ i, remaining (spsps_consume_n p n) i = remaining p (i + n)) ∧
    (spsps_consume_n p n).next < SPSPS_LOOK ∧
    ((spsps_consume_n p n).line, (spsps_consume_n p n).column)
      = (nextChars p n).foldl advanceLC (p.line, p.column) ∧
    (spsps_consume_n p n).errno = spsps_errno.OK ∧
    (spsps_consume_n p n).look_count = 0 ∧
    (spsps_consume_n p n).at_eof = p.at_eof := by
  have hn : ¬(n ≥ SPSPS_LOOK) := by omega
  by_cases he : p.at_eof = true
  · have helt : p.eof_count < 1000 := by
      rcases Nat.lt_or_ge p.eof_count 1000 with h | h
      · exact h
      · exact absurd ⟨he, h⟩ h3
    have hmod : (p.eof_count + 1) % 65536 = p.eof_count + 1 := by omega
    have hgt : ¬(p.eof_count + 1 > 1000) := by omega
    have heq : spsps_consume_n p n
        = spsps_consume_loop
          ({ p with errno := spsps_errno.OK
                    look_count := 0
                    eof_count := p.eof_count + 1 }) n := by
      simp [spsps_consume_n, hn, he, hmod, hgt]
    rw [heq]
    obtain ⟨r1, r2, r3, r4, r5, r6, r7, r8⟩ := consume_loop_spec n
      ({ p with errno := spsps_errno.OK
                look_count := 0
                eof_count := p.eof_count + 1 }) h1 h2
    exact ⟨r1, r2, r3, r5, r6, by rw [r4]⟩
  · have hf : p.at_eof = false := by
      simpa using he
    have heq : spsps_consume_n p n
        = spsps_consume_loop
          ({ p with errno := spsps_errno.OK, look_count := 0 }) n := by
      simp [spsps_consume_n, hn, hf]
    rw [heq]
    obtain ⟨r1, r2, r3, r4, r5, r6, r7, r8⟩ := consume_loop_spec n
      ({ p with errno := spsps_errno.OK, look_count := 0 }) h1 h2
    exact ⟨r1, r2, r3, r5, r6, by rw [r4]⟩

/-- `spsps_look_` under the lookahead bound and below the stall
threshold: it returns the lookahead character and only bumps the
no-progress counter. -/
theorem look_spec (p : Parser) (n : Nat) (hn : n < SPSPS_LOOK)
    (hlc : p.look_count + 1 ≤ 1000) (h1 : p.next < SPSPS_LOOK) :
    spsps_look_ p n
      = (remaining p n, { p with look_count := p.look_count + 1 }) := by
  have hmod : (p.look_count + 1) % 65536 = p.look_count + 1 := by omega
  have hge : ¬(n ≥ SPSPS_LOOK) := by omega
  have hgt : ¬(p.look_count + 1 > 1000) := by omega
  rcases Nat.lt_or_ge (n + p.next) SPSPS_LOOK with hc | hc
  · rw [remaining_lookup_lo p n hc]
    simp [spsps_look_, hmod, hge, hgt, hc]
  · rw [remaining_lookup_hi p n h1 hc hn]
    simp [spsps_look_, hmod, hge, hgt,
      show ¬(n + p.next < SPSPS_LOOK) from by omega]

/-- The scan loop of `spsps_peek_str`: under the stall threshold it
returns true (bumping the counter once per character) exactly when the
lookahead characters match the needle, and otherwise returns false
without touching anything but the counter. -/
theorem peek_str_loop_spec :
    ∀ (needle : List Nat) (idx : Nat) (p : Parser),
      p.next < SPSPS_LOOK →
      idx + needle.length < SPSPS_LOOK →
      p.look_count + needle.length ≤ 1000 →
      SPSPS_EOF ∉ needle →
      (((List.range needle.length).map (fun i => remaining p (idx + i))
          = needle →
        spsps_peek_str_loop p needle idx
          = (true, { p with look_count := p.look_count + needle.length })) ∧
       ((List.range needle.length).map (fun i => remaining p (idx + i))
          ≠ needle →
        ∃ lc, spsps_peek_str_loop p needle idx
          = (false, { p with look_count := lc }))) := by
  intro needle
  induction needle with
  | nil =>
    intro idx p h1 h2 h3 h4
    constructor
    · intro _
      rfl
    · intro hne
      exact absurd rfl hne
  | cons c rest ih =>
    intro idx p h1 h2 h3 h4
    have h2s : idx + (rest.length + 1) < SPSPS_LOOK := by simpa using h2
    have h3s : p.look_count + (rest.length + 1) ≤ 1000 := by simpa using h3
    have hlk := look_spec p idx (by omega) (by omega) h1
    have hstep : spsps_peek_str_loop p (c :: rest) idx
        = if c ≠ remaining p idx
          then (false, { p with look_count := p.look_count + 1 })
          else spsps_peek_str_loop
            ({ p with look_count := p.look_count + 1 }) rest (idx + 1) := by
      simp only [spsps_peek_str_loop, hlk]
    have hdec : (List.range (c :: rest).length).map
          (fun i => remaining p (idx + i))
        = remaining p idx
          :: (List.range rest.length).map (fun i => remaining p (idx + 1 + i)) := by
      show (List.range (rest.length + 1)).map (fun i => remaining p (idx + i)) = _
      rw [List.range_succ_eq_map, List.map_cons, List.map_map]
      refine congrArg₂ _ (by rw [Nat.add_zero]) ?_
      refine List.map_congr_left (fun i _ => ?_)
      show remaining p (idx + (i + 1)) = remaining p (idx + 1 + i)
      rw [show idx + (i + 1) = idx + 1 + i from by omega]
    by_cases hc : c = remaining p idx
    · obtain ⟨iha, ihb⟩ := ih (idx + 1) ({ p with look_count := p.look_count + 1 })
        h1 (by omega)
        (by show p.look_count + 1 + rest.length ≤ 1000
            omega)
        (by intro hmem; exact h4 (List.mem_cons_of_mem _ hmem))
      rw [hstep, if_neg (by simp [hc])]
      constructor
      · intro h
        rw [hdec] at h
        have htl := (List.cons.injEq _ _ _ _).mp h |>.2
        have := iha htl
        rw [this]
        refine congrArg _
          (congrArg (fun lc => ({ p with look_count := lc } : Parser)) ?_)
        show p.look_count + 1 + rest.length = p.look_count + (rest.length + 1)
        omega
      · intro h
        rw [hdec] at h
        have htl : (List.range rest.length).map
            (fun i => remaining p (idx + 1 + i)) ≠ rest := by
          intro hx
          exact h (by rw [hx, hc])
        obtain ⟨lc, hl⟩ := ihb htl
        exact ⟨lc, hl⟩
    · rw [hstep, if_pos hc]
      constructor
      · intro h
        rw [hdec] at h
        exact absurd ((List.cons.injEq _ _ _ _).mp h).1.symm hc
      · intro _
        exact ⟨p.look_count + 1, rfl⟩

/-- `spsps_peek_str` under the stall threshold: true exactly on a match,
and the only state changes are the no-progress counter and the error
field (set to OK). -/
theorem peek_str_spec (p : Parser) (needle : List Nat)
    (h1 : p.next < SPSPS_LOOK) (h2 : needle.length < SPSPS_LOOK)
    (h3 : p.look_count + needle.length ≤ 1000)
    (h4 : SPSPS_EOF ∉ needle) :
    (nextChars p needle.length = needle →
      spsps_peek_str p needle
        = (true, { p with errno := spsps_errno.OK
                          look_count := p.look_count + needle.length })) ∧
    (nextChars p needle.length ≠ needle →
      ∃ lc, spsps_peek_str p needle
        = (false, { p with errno := spsps_errno.OK, look_count := lc })) := by
  have hmap : (List.range needle.length).map
      (fun i => remaining ({ p with errno := spsps_errno.OK }) (0 + i))
      = nextChars p needle.length := by
    unfold nextChars
    refine List.map_congr_left (fun i _ => ?_)
    show remaining p (0 + i) = remaining p i
    rw [Nat.zero_add]
  obtain ⟨ha, hb⟩ := peek_str_loop_spec needle 0
    ({ p with errno := spsps_errno.OK }) h1 (by omega) h3 h4
  constructor
  · intro h
    unfold spsps_peek_str
    rw [if_neg (by omega)]
    exact ha (by rw [hmap]; exact h)
  · intro h
    unfold spsps_peek_str
    rw [if_neg (by omega)]
    obtain ⟨lc, hl⟩ := hb (by rw [hmap]; exact h)
    exact ⟨lc, hl⟩

/-- C3: for every code point `cp < 0x110000`, decoding the bytes produced
by `utf8encode cp` (laid out in its zero-padded output buffer) yields
`(cp, n)` with `n` the byte count `utf8encode` reported, whatever the
decode out-parameter held before; for `cp ≥ 0x110000`, `utf8encode`
reports a zero byte count.  This holds even though the encoder's
three-byte boundary is the (buggy) `0x1000`: the decoder mirrors the
encoder bit-for-bit on every produced sequence. -/
theorem C3_decode_encode_roundtrip (cp : Nat) (used0 : Nat) :
    (cp < 0x110000 →
      utf8decode (bufOf (utf8encode cp).1) used0 = (cp, (utf8encode cp).2)) ∧
    (0x110000 ≤ cp → (utf8encode cp).2 = 0) := by
  constructor
  · intro hv
    rcases Nat.lt_or_ge cp 0x80 with h1 | h1
    · -- single byte
      unfold utf8encode
      rw [if_pos h1]
      dsimp only
      unfold utf8decode
      have e0 : bufOf [cp] 0 = cp := rfl
      rw [e0, if_pos h1]
    · rcases Nat.lt_or_ge cp 0x800 with h2 | h2
      · -- two bytes
        unfold utf8encode
        rw [if_neg (by omega), if_pos h2]
        dsimp only
        have e0 : bufOf [(cp >>> 6) + 0xc0, (cp &&& 0x3f) + 0x80] 0
            = (cp >>> 6) + 0xc0 := rfl
        have e1 : bufOf [(cp >>> 6) + 0xc0, (cp &&& 0x3f) + 0x80] 1
            = (cp &&& 0x3f) + 0x80 := rfl
        have hsr : cp >>> 6 = cp / 64 := by
          rw [Nat.shiftRight_eq_div_pow]
        unfold utf8decode
        rw [e0, e1, hsr, and_63_eq_mod cp]
        rw [if_neg (by omega), if_neg (by omega), if_pos (by omega)]
        rw [add_128_and_192 (cp % 64) (by omega)]
        rw [if_neg (by simp), add_192_and_31 (cp / 64) (by omega)]
        rw [and_63_eq_mod (cp % 64 + 128)]
        have hm : (cp % 64 + 128) % 64 = cp % 64 := by omega
        rw [hm, Nat.shiftLeft_eq]
        rw [lor_eq_add (a := cp / 64 * 2 ^ 6) (r := cp % 64) (k := 6)
            ⟨cp / 64, by ring⟩ (by norm_num <;> omega)]
        have hp6 : (2 : Nat) ^ 6 = 64 := by norm_num
        rw [hp6]
        have hval : cp / 64 * 64 + cp % 64 = cp := by omega
        rw [hval]
      · rcases Nat.lt_or_ge cp 0x1000 with h3 | h3
        · -- three bytes (the source's boundary is 0x1000)
          unfold utf8encode
          rw [if_neg (by omega), if_neg (by omega), if_pos h3]
          dsimp only
          have e0 : bufOf [(cp >>> 12) + 0xe0, ((cp >>> 6) &&& 0x3f) + 0x80,
              (cp &&& 0x3f) + 0x80] 0 = (cp >>> 12) + 0xe0 := rfl
          have e1 : bufOf [(cp >>> 12) + 0xe0, ((cp >>> 6) &&& 0x3f) + 0x80,
              (cp &&& 0x3f) + 0x80] 1 = ((cp >>> 6) &&& 0x3f) + 0x80 := rfl
          have e2 : bufOf [(cp >>> 12) + 0xe0, ((cp >>> 6) &&& 0x3f) + 0x80,
              (cp &&& 0x3f) + 0x80] 2 = (cp &&& 0x3f) + 0x80 := rfl
          have hsr12 : cp >>> 12 = cp / 4096 := by
            rw [Nat.shiftRight_eq_div_pow]
          have hsr6 : cp >>> 6 = cp / 64 := by
            rw [Nat.shiftRight_eq_div_pow]
          have h12 : cp / 4096 = 0 := by omega
          unfold utf8decode
          rw [e0, e1, e2, hsr12, hsr6, and_63_eq_mod (cp / 64),
              and_63_eq_mod cp, h12]
          rw [if_neg (by omega), if_neg (by omega), if_neg (by omega),
              if_pos (by omega)]
          rw [add_128_and_192 (cp / 64 % 64) (by omega), if_neg (by simp)]
          rw [add_128_and_192 (cp % 64) (by omega), if_neg (by simp)]
          have hb0 : (0 + 224) &&& 7 = 0 := by decide
          rw [hb0, and_63_eq_mod (cp / 64 % 64 + 128),
              and_63_eq_mod (cp % 64 + 128)]
          have hm1 : (cp / 64 % 64 + 128) % 64 = cp / 64 % 64 := by omega
          have hm2 : (cp % 64 + 128) % 64 = cp % 64 := by omega
          rw [hm1, hm2]
          have hz : (0 : Nat) <<< 12 = 0 := rfl
          rw [hz, Nat.zero_or, Nat.shiftLeft_eq]
          rw [lor_eq_add (a := cp / 64 % 64 * 2 ^ 6) (r := cp % 64) (k := 6)
              ⟨cp / 64 % 64, by ring⟩ (by norm_num <;> omega)]
          have hp6 : (2 : Nat) ^ 6 = 64 := by norm_num
          rw [hp6]
          have hval : cp / 64 % 64 * 64 + cp % 64 = cp := by omega
          rw [hval]
        · -- four bytes
          unfold utf8encode
          rw [if_neg (by omega), if_neg (by omega), if_neg (by omega), if_pos hv]
          dsimp only
          have e0 : bufOf [(cp >>> 18) + 0xf0, ((cp >>> 12) &&& 0x3f) + 0x80,
              ((cp >>> 6) &&& 0x3f) + 0x80, (cp &&& 0x3f) + 0x80] 0
              = (cp >>> 18) + 0xf0 := rfl
          have e1 : bufOf [(cp >>> 18) + 0xf0, ((cp >>> 12) &&& 0x3f) + 0x80,
              ((cp >>> 6) &&& 0x3f) + 0x80, (cp &&& 0x3f) + 0x80] 1
              = ((cp >>> 12) &&& 0x3f) + 0x80 := rfl
          have e2 : bufOf [(cp >>> 18) + 0xf0, ((cp >>> 12) &&& 0x3f) + 0x80,
              ((cp >>> 6) &&& 0x3f) + 0x80, (cp &&& 0x3f) + 0x80] 2
              = ((cp >>> 6) &&& 0x3f) + 0x80 := rfl
          have e3 : bufOf [(cp >>> 18) + 0xf0, ((cp >>> 12) &&& 0x3f) + 0x80,
              ((cp >>> 6) &&& 0x3f) + 0x80, (cp &&& 0x3f) + 0x80] 3
              = (cp &&& 0x3f) + 0x80 := rfl
          have hsr18 : cp >>> 18 = cp / 262144 := by
            rw [Nat.shiftRight_eq_div_pow]
          have hsr12 : cp >>> 12 = cp / 4096 := by
            rw [Nat.shiftRight_eq_div_pow]
          have hsr6 : cp >>> 6 = cp / 64 := by
            rw [Nat.shiftRight_eq_div_pow]
          have h18 : cp / 262144 < 8 := by omega
          unfold utf8decode
          rw [e0, e1, e2, e3, hsr18, hsr12, hsr6, and_63_eq_mod (cp / 4096),
              and_63_eq_mod (cp / 64), and_63_eq_mod cp]
          rw [if_neg (by omega), if_neg (by omega), if_neg (by omega),
              if_neg (by omega), if_pos (by omega)]
          rw [add_128_and_192 (cp / 4096 % 64) (by omega), if_neg (by simp)]
          rw [add_128_and_192 (cp / 64 % 64) (by omega), if_neg (by simp)]
          rw [add_128_and_192 (cp % 64) (by omega), if_neg (by simp)]
          rw [add_240_and_7 (cp / 262144) h18]
          rw [and_63_eq_mod (cp / 4096 % 64 + 128),
              and_63_eq_mod (cp / 64 % 64 + 128), and_63_eq_mod (cp % 64 + 128)]
          have hm1 : (cp / 4096 % 64 + 128) % 64 = cp / 4096 % 64 := by omega
          have hm2 : (cp / 64 % 64 + 128) % 64 = cp / 64 % 64 := by omega
          have hm3 : (cp % 64 + 128) % 64 = cp % 64 := by omega
          rw [hm1, hm2, hm3]
          rw [Nat.shiftLeft_eq, Nat.shiftLeft_eq, Nat.shiftLeft_eq]
          rw [lor_eq_add (a := cp / 262144 * 2 ^ 18)
              (r := cp / 4096 % 64 * 2 ^ 12) (k := 18)
              ⟨cp / 262144, by ring⟩ (by norm_num <;> omega)]
          rw [lor_eq_add
              (a := cp / 262144 * 2 ^ 18 + cp / 4096 % 64 * 2 ^ 12)
              (r := cp / 64 % 64 * 2 ^ 6) (k := 12)
              ⟨64 * (cp / 262144) + cp / 4096 % 64, by ring⟩
              (by norm_num <;> omega)]
          rw [lor_eq_add
              (a := cp / 262144 * 2 ^ 18 + cp / 4096 % 64 * 2 ^ 12
                    + cp / 64 % 64 * 2 ^ 6)
              (r := cp % 64) (k := 6)
              ⟨4096 * (cp / 262144) + 64 * (cp / 4096 % 64) + cp / 64 % 64,
               by ring⟩ (by norm_num <;> omega)]
          have hp18 : (2 : Nat) ^ 18 = 262144 := by norm_num
          have hp12 : (2 : Nat) ^ 12 = 4096 := by norm_num
          have hp6 : (2 : Nat) ^ 6 = 64 := by norm_num
          rw [hp18, hp12, hp6]
          have hval : cp / 262144 * 262144 + cp / 4096 % 64 * 4096
              + cp / 64 % 64 * 64 + cp % 64 = cp := by omega
          rw [hval]
  · intro hv
    unfold utf8encode
    rw [if_neg (by omega), if_neg (by omega), if_neg (by omega), if_neg (by omega)]

/-- Witness for C3 at the concrete code points U+20AC (valid) and
U+110000 (invalid). -/
theorem C3_decode_encode_roundtrip_witness :
    utf8decode (bufOf (utf8encode 0x20AC).1) 0 = (0x20AC, (utf8encode 0x20AC).2) ∧
    (utf8encode 0x110000).2 = 0 :=
  ⟨(C3_decode_encode_roundtrip 0x20AC 0).1 (by norm_num),
   (C3_decode_encode_roundtrip 0x110000 0).2 (by norm_num)⟩

theorem sumLocal_nil : sumLocal [] = 0 := rfl

theorem sumLocal_cons (b : MBlock) (l : List MBlock) :
    sumLocal (b :: l) = b.local_length + sumLocal l := by
  simp [sumLocal]

theorem MInv_nil : MInv ([] : mstring) := by
  refine ⟨rfl, ?_, ?_⟩ <;> simp

theorem MInv_wrap (g : Nat → Nat) (value : List Nat) :
    MInv (mstr_wrap g value) := by
  unfold mstr_wrap
  split
  · exact MInv_nil
  · refine ⟨?_, ?_, ?_⟩
    · simp [mstr_length, sumLocal]
    · simp
    · simp

/-- The effect of the `mstr_append_cstr` chain walk on the invariant
components. -/
theorem append_walk_MInv (g : Nat → Nat) (cstr : List Nat) :
    ∀ m : mstring, m ≠ [] →
      (∀ b ∈ m.dropLast, b.local_length = b.local_capacity) →
      (∀ b ∈ m, b.local_length ≤ b.local_capacity) →
      mstr_length (mstr_append_walk g cstr m) = mstr_length m + cstr.length ∧
      sumLocal (mstr_append_walk g cstr m) = sumLocal m + cstr.length ∧
      (∀ b ∈ (mstr_append_walk g cstr m).dropLast,
        b.local_length = b.local_capacity) ∧
      (∀ b ∈ mstr_append_walk g cstr m, b.local_length ≤ b.local_capacity) := by
  intro m
  induction m with
  | nil => intro h; exact absurd rfl h
  | cons here rest ih =>
    intro _ hfull hle
    rcases rest with _ | ⟨b2, rest2⟩
    · -- tail block
      by_cases hex : here.local_capacity - here.local_length ≥ cstr.length
      · -- the write fits
        have hh := hle here (by simp)
        simp only [mstr_append_walk, if_pos hex]
        refine ⟨by simp [mstr_length], ?_, by simp, ?_⟩
        · simp [sumLocal]
        · intro b hb
          simp only [List.mem_singleton] at hb
          subst hb
          simp only
          omega
      · -- split across the boundary
        have hh := hle here (by simp)
        have hlt : here.local_capacity - here.local_length < cstr.length := by
          omega
        simp only [mstr_append_walk, if_neg hex]
        have hwrapne : (cstr.drop (here.local_capacity - here.local_length)).length
            = cstr.length - (here.local_capacity - here.local_length) := by
          simp
        have hwrap : mstr_wrap g (cstr.drop (here.local_capacity - here.local_length))
            = [{ cstr := fun i =>
                   if i < (cstr.drop (here.local_capacity - here.local_length)).length
                   then (cstr.drop (here.local_capacity - here.local_length)).getD i 0
                   else g i,
                 local_capacity :=
                   (cstr.drop (here.local_capacity - here.local_length)).length + MSTR_INC,
                 local_length :=
                   (cstr.drop (here.local_capacity - here.local_length)).length,
                 length :=
                   (cstr.drop (here.local_capacity - here.local_length)).length }] := by
          unfold mstr_wrap
          rw [if_neg (by omega)]
        rw [hwrap]
        refine ⟨by simp [mstr_length], ?_, ?_, ?_⟩
        · simp only [sumLocal_cons, sumLocal_nil, hwrapne]
          omega
        · intro b hb
          simp only [List.dropLast, List.mem_singleton] at hb
          subst hb
          simp only
          omega
        · intro b hb
          simp only [List.mem_cons, List.mem_singleton, List.not_mem_nil,
            or_false] at hb
          rcases hb with hb | hb <;> subst hb <;> simp only <;> omega
    · -- interior block: only the length field changes
      rw [List.dropLast_cons_of_ne_nil (by simp)] at hfull
      have hrec := ih (by simp)
        (by intro b hb; exact hfull b (List.mem_cons_of_mem _ hb))
        (by intro b hb; exact hle b (by simp [hb]))
      obtain ⟨r1, r2, r3, r4⟩ := hrec
      simp only [mstr_append_walk]
      have hne : mstr_append_walk g cstr (b2 :: rest2) ≠ [] := by
        rcases rest2 with _ | ⟨b3, rest3⟩
        · by_cases hex : b2.local_capacity - b2.local_length ≥ cstr.length <;>
            simp [mstr_append_walk, hex]
        · simp [mstr_append_walk]
      refine ⟨by simp [mstr_length], ?_, ?_, ?_⟩
      · simp only [sumLocal_cons] at r2 ⊢
        omega
      · intro b hb
        rw [List.dropLast_cons_of_ne_nil hne] at hb
        rcases List.mem_cons.mp hb with hb | hb
        · subst hb
          exact hfull here (List.mem_cons_self _ _)
        · exact r3 b hb
      · intro b hb
        rcases List.mem_cons.mp hb with hb | hb
        · subst hb
          exact hle here (by simp)
        · exact r4 b hb

/-- The effect of the `mstr_concat` chain walk on the invariant
components.  `slen` is the `length` field of (the head of) `second`. -/
theorem concat_walk_MInv (slen : Nat) (second : mstring)
    (hsfull : ∀ b ∈ second.dropLast, b.local_length = b.local_capacity)
    (hsle : ∀ b ∈ second, b.local_length ≤ b.local_capacity)
    (hsne : second ≠ []) :
    ∀ first : mstring, first ≠ [] →
      (∀ b ∈ first.dropLast, b.local_length = b.local_capacity) →
      (∀ b ∈ first, b.local_length ≤ b.local_capacity) →
      mstr_length (mstr_concat_walk slen second first)
        = mstr_length first + slen ∧
      sumLocal (mstr_concat_walk slen second first)
        = sumLocal first + sumLocal second ∧
      (∀ b ∈ (mstr_concat_walk slen second first).dropLast,
        b.local_length = b.local_capacity) ∧
      (∀ b ∈ mstr_concat_walk slen second first,
        b.local_length ≤ b.local_capacity) := by
  intro first
  induction first with
  | nil => intro h; exact absurd rfl h
  | cons here rest ih =>
    intro _ hfull hle
    rcases rest with _ | ⟨b2, rest2⟩
    · -- tail block: capacity is truncated to the used length
      simp only [mstr_concat_walk]
      refine ⟨by simp [mstr_length], ?_, ?_, ?_⟩
      · simp [sumLocal]
      · intro b hb
        rw [List.dropLast_cons_of_ne_nil hsne] at hb
        rcases List.mem_cons.mp hb with hb | hb
        · subst hb; rfl
        · exact hsfull b hb
      · intro b hb
        rcases List.mem_cons.mp hb with hb | hb
        · subst hb; exact Nat.le_refl _
        · exact hsle b hb
    · -- interior block
      rw [List.dropLast_cons_of_ne_nil (by simp)] at hfull
      have hrec := ih (by simp)
        (by intro b hb; exact hfull b (List.mem_cons_of_mem _ hb))
        (by intro b hb; exact hle b (by simp [hb]))
      obtain ⟨r1, r2, r3, r4⟩ := hrec
      simp only [mstr_concat_walk]
      have hne : mstr_concat_walk slen second (b2 :: rest2) ≠ [] := by
        rcases rest2 with _ | ⟨b3, rest3⟩ <;> simp [mstr_concat_walk]
      refine ⟨by simp [mstr_length], ?_, ?_, ?_⟩
      · simp only [sumLocal_cons] at r2 ⊢
        omega
      · intro b hb
        rw [List.dropLast_cons_of_ne_nil hne] at hb
        rcases List.mem_cons.mp hb with hb | hb
        · subst hb
          exact hfull here (List.mem_cons_self _ _)
        · exact r3 b hb
      · intro b hb
        rcases List.mem_cons.mp hb with hb | hb
        · subst hb
          exact hle here (by simp)
        · exact r4 b hb

/-- C9: every mutable-string operation (`mstr_new`, `mstr_wrap`,
`mstr_copy`, `mstr_append`, `mstr_concat`) preserves the invariant that
the stored total length equals the sum of the used lengths of all blocks
in the chain, and that every block except possibly the last is full
(and no block overruns its capacity). -/
theorem C9_mutable_invariant_preserved :
    (∀ capacity g, MInv (mstr_new capacity g)) ∧
    (∀ g value, MInv (mstr_wrap g value)) ∧
    (∀ g other, MInv other → MInv (mstr_copy g other)) ∧
    (∀ g value ch, MInv value → MInv (mstr_append g value ch)) ∧
    (∀ first second, MInv first → MInv second →
      MInv (mstr_concat first second)) := by
  refine ⟨?_, ?_, ?_, ?_, ?_⟩
  · intro capacity g
    refine ⟨by simp [mstr_new, mstr_length, sumLocal], by simp [mstr_new], ?_⟩
    intro b hb
    simp only [mstr_new, List.mem_singleton] at hb
    subst hb
    simp only
    split <;> simp [MSTR_INC]
  · intro g value
    exact MInv_wrap g value
  · intro g other _
    simp only [mstr_copy]
    split
    · exact MInv_nil
    · refine ⟨by simp [mstr_length, sumLocal], by simp, ?_⟩
      intro b hb
      simp only [List.mem_singleton] at hb
      subst hb
      simp [MSTR_INC]
  · intro g value ch h
    obtain ⟨h1, h2, h3⟩ := h
    rcases value with _ | ⟨here, rest⟩
    · show MInv (mstr_wrap g (encodeCstr ch))
      exact MInv_wrap g _
    · show MInv (if (encodeCstr ch).length = 0 then here :: rest
                 else mstr_append_walk g (encodeCstr ch) (here :: rest))
      split
      · exact ⟨h1, h2, h3⟩
      · obtain ⟨r1, r2, r3, r4⟩ :=
          append_walk_MInv g (encodeCstr ch) (here :: rest) (by simp) h2 h3
        exact ⟨by rw [r1, r2, h1], r3, r4⟩
  · intro first second hf hs
    obtain ⟨f1, f2, f3⟩ := hf
    obtain ⟨s1, s2, s3⟩ := hs
    rcases second with _ | ⟨sb, srest⟩
    · rcases first with _ | ⟨fb, frest⟩
      · exact MInv_nil
      · exact ⟨f1, f2, f3⟩
    · rcases first with _ | ⟨fb, frest⟩
      · exact ⟨s1, s2, s3⟩
      · show MInv (mstr_concat_walk (mstr_length (sb :: srest)) (sb :: srest)
          (fb :: frest))
        obtain ⟨r1, r2, r3, r4⟩ :=
          concat_walk_MInv (mstr_length (sb :: srest)) (sb :: srest) s2 s3
            (by simp) (fb :: frest) (by simp) f2 f3
        exact ⟨by rw [r1, r2, f1, s1], r3, r4⟩

/-- Witness for C9 at concrete inputs: a fresh block, a wrapped string,
a copy, a character append and a concatenation. -/
theorem C9_mutable_invariant_preserved_witness :
    MInv (mstr_new 4 (fun _ => 0)) ∧
    MInv (mstr_wrap (fun _ => 0) [97, 98]) ∧
    MInv (mstr_copy (fun _ => 0) (mstr_wrap (fun _ => 0) [97, 98])) ∧
    MInv (mstr_append (fun _ => 0) (mstr_new 4 (fun _ => 0)) 0xA2) ∧
    MInv (mstr_concat (mstr_wrap (fun _ => 0) [97])
      (mstr_wrap (fun _ => 0) [98])) :=
  ⟨C9_mutable_invariant_preserved.1 4 (fun _ => 0),
   C9_mutable_invariant_preserved.2.1 (fun _ => 0) [97, 98],
   C9_mutable_invariant_preserved.2.2.1 (fun _ => 0) _
     (C9_mutable_invariant_preserved.2.1 (fun _ => 0) [97, 98]),
   C9_mutable_invariant_preserved.2.2.2.1 (fun _ => 0) _ 0xA2
     (C9_mutable_invariant_preserved.1 4 (fun _ => 0)),
   C9_mutable_invariant_preserved.2.2.2.2 _ _
     (C9_mutable_invariant_preserved.2.1 (fun _ => 0) [97])
     (C9_mutable_invariant_preserved.2.1 (fun _ => 0) [98])⟩

/-- One `spsps_peek` below the stall threshold only bumps the
no-progress counter: iterating it 1000 times from `c7ok` reaches the
stalled-counter state `c7stall`.  This shows the counterexample state of
C7 is reachable by 1000 consecutive peeks. -/
theorem c7stall_reached : ∀ k, k ≤ 1000 →
    peekStep^[k] c7ok = { c7stall with look_count := k } := by
  intro k
  induction k with
  | zero =>
    intro _
    rfl
  | succ k ih =>
    intro hk
    rw [Function.iterate_succ_apply', ih (by omega)]
    have hls := look_spec ({ c7stall with look_count := k
                                          errno := spsps_errno.OK }) 0
      (by decide) (by show k + 1 ≤ 1000; omega)
      (by show c7stall.next < SPSPS_LOOK; decide)
    exact congrArg Prod.snd hls

/-- C7 (counterexample): with the no-progress counter at the stall
threshold (reachable by 1000 consecutive peeks, see `c7stall_reached`),
the next lookahead character equals the needle `"a"`, yet
`spsps_peek_and_consume` returns false (the stall watchdog makes the
comparison read the EOF sentinel), leaving position unchanged and the
error field `STALLED` — refuting the claim's match direction as stated. -/
theorem C7_peek_and_consume_atomic_cx :
    nextChars c7stall 1 = [97] ∧
    spsps_peek_and_consume c7stall [97]
      = (false, { c7stall with look_count := 1001
                               errno := spsps_errno.STALLED }) := by
  exact ⟨rfl, rfl⟩

/-- C7 (amended): for every parser whose cursor is inside the buffer,
whose no-progress counter plus the needle length stays within the stall
threshold, that is not in the stalled-at-EOF regime, and every needle
shorter than the lookahead limit containing no EOF-sentinel byte: if the
lookahead does not match the needle, `spsps_peek_and_consume` returns
false and leaves everything but the no-progress counter and the error
field unchanged; if it matches, it returns true and the stream position
advances by exactly the needle's length (the upcoming characters shift by
that amount and line/column advance over exactly the needle's bytes). -/
theorem C7_peek_and_consume_atomic (p : Parser) (needle : List Nat)
    (h1 : p.next < SPSPS_LOOK)
    (h2 : needle.length < SPSPS_LOOK)
    (h3 : p.look_count + needle.length ≤ 1000)
    (h4 : SPSPS_EOF ∉ needle)
    (h5 : ¬(p.at_eof = true ∧ 1000 ≤ p.eof_count)) :
    (nextChars p needle.length ≠ needle →
      ∃ lc, spsps_peek_and_consume p needle
        = (false, { p with errno := spsps_errno.OK, look_count := lc })) ∧
    (nextChars p needle.length = needle →
      ∃ q, spsps_peek_and_consume p needle = (true, q) ∧
        (∀ i, remaining q i = remaining p (i + needle.length)) ∧
        (q.line, q.column) = needle.foldl advanceLC (p.line, p.column) ∧
        q.errno = spsps_errno.OK ∧ q.at_eof = p.at_eof ∧
        q.next < SPSPS_LOOK) := by
  obtain ⟨ha, hb⟩ := peek_str_spec p needle h1 h2 h3 h4
  constructor
  · intro h
    obtain ⟨lc, hl⟩ := hb h
    have hl' : spsps_peek_str ({ p with errno := spsps_errno.OK }) needle
        = (false, { p with errno := spsps_errno.OK, look_count := lc }) := hl
    exact ⟨lc, by simp [spsps_peek_and_consume, hl']⟩
  · intro h
    have hps := ha h
    have hps' : spsps_peek_str ({ p with errno := spsps_errno.OK }) needle
        = (true, { p with errno := spsps_errno.OK
                          look_count := p.look_count + needle.length }) := hps
    have hch : ∀ i, i < needle.length → remaining p i ≠ SPSPS_EOF := by
      intro i hi hcontra
      apply h4
      rw [← h]
      exact List.mem_map.mpr ⟨i, List.mem_range.mpr hi, hcontra⟩
    obtain ⟨r1, r2, r3, r4, r5, r6⟩ := consume_n_spec
      ({ p with errno := spsps_errno.OK
                look_count := p.look_count + needle.length })
      needle.length h2 h1 hch h5
    refine ⟨_, by simp [spsps_peek_and_consume, hps'], r1, ?_, r4, r6, r2⟩
    rw [r3]
    exact congrArg (fun l => l.foldl advanceLC (p.line, p.column)) h

/-- Witness for C7 at a parser that has read `"ab"` and the needle `"a"`:
the match direction fires, the parser advances one character. -/
theorem C7_peek_and_consume_atomic_witness :
    nextChars c7ok 1 = [97] ∧
    ∃ q, spsps_peek_and_consume c7ok [97] = (true, q) ∧
      (∀ i, remaining q i = remaining c7ok (i + 1)) ∧
      (q.line, q.column) = [97].foldl advanceLC (c7ok.line, c7ok.column) ∧
      q.errno = spsps_errno.OK ∧ q.at_eof = c7ok.at_eof ∧
      q.next < SPSPS_LOOK := by
  refine ⟨rfl, ?_⟩
  have := C7_peek_and_consume_atomic c7ok [97] (by decide) (by decide)
    (by decide) (by decide) (by decide)
  exact this.2 rfl

/-- C6: with the input `"ab\ncd"` read into the buffer, line and column
start at 1, and after consuming 5 characters `spsps_loc` reports line 2,
column 3; in general a single consume of a non-sentinel character updates
(line, column) exactly by `advanceLC`: line+1 and column reset to 1 on a
newline byte, column+1 otherwise. -/
theorem C6_line_column_tracking :
    (∀ g : Bool → Nat → Nat,
      (spsps_new "doc" [97, 98, 10, 99, 100] g).line = 1 ∧
      (spsps_new "doc" [97, 98, 10, 99, 100] g).column = 1 ∧
      (spsps_loc (spsps_consume_n (c6p g) 5)).1.line = 2 ∧
      (spsps_loc (spsps_consume_n (c6p g) 5)).1.column = 3) ∧
    (∀ q : Parser, q.next < SPSPS_LOOK →
      ¬(q.at_eof = true ∧ 1000 ≤ q.eof_count) →
      q.blocks q.block q.next ≠ SPSPS_EOF →
      ((spsps_consume_n q 1).line, (spsps_consume_n q 1).column)
        = advanceLC (q.line, q.column) (q.blocks q.block q.next)) := by
  constructor
  · intro g
    have h2 : ∀ i, i < 5 → remaining (c6p g) i ≠ SPSPS_EOF := by
      intro i hi
      interval_cases i
      · exact (by decide : (97 : Nat) ≠ 0xFF)
      · exact (by decide : (98 : Nat) ≠ 0xFF)
      · exact (by decide : (10 : Nat) ≠ 0xFF)
      · exact (by decide : (99 : Nat) ≠ 0xFF)
      · exact (by decide : (100 : Nat) ≠ 0xFF)
    obtain ⟨r1, r2, r3, r4, r5, r6⟩ := consume_n_spec (c6p g) 5 (by decide)
      (by show (0 : Nat) < SPSPS_LOOK; decide) h2
      (by show ¬(false = true ∧ 1000 ≤ 0); decide)
    have hnc : nextChars (c6p g) 5 = [97, 98, 10, 99, 100] := rfl
    rw [hnc] at r3
    have hfold : ([97, 98, 10, 99, 100] : List Nat).foldl advanceLC
        ((c6p g).line, (c6p g).column) = (2, 3) := by
      show ([97, 98, 10, 99, 100] : List Nat).foldl advanceLC (1, 1) = (2, 3)
      decide
    rw [hfold, Prod.mk.injEq] at r3
    obtain ⟨hline, hcol⟩ := r3
    refine ⟨rfl, rfl, ?_, ?_⟩
    · simp only [spsps_loc]
      exact hline
    · simp only [spsps_loc]
      exact hcol
  · intro q hq1 hq2 hq3
    have h2 : ∀ i, i < 1 → remaining q i ≠ SPSPS_EOF := by
      intro i hi
      have hz : i = 0 := by omega
      subst hz
      rw [remaining_zero q hq1]
      exact hq3
    obtain ⟨r1, r2, r3, r4, r5, r6⟩ := consume_n_spec q 1 (by decide) hq1 h2 hq2
    rw [r3, show nextChars q 1 = [remaining q 0] from rfl]
    rw [List.foldl_cons, List.foldl_nil, remaining_zero q hq1]

/-- Witness for C6, discharging the general-law hypotheses at the state
whose next byte is `'a'`. -/
theorem C6_line_column_tracking_witness :
    (spsps_loc (spsps_consume_n (c6p zeroMem) 5)).1.line = 2 ∧
    (spsps_loc (spsps_consume_n (c6p zeroMem) 5)).1.column = 3 ∧
    ((spsps_consume_n c7ok 1).line, (spsps_consume_n c7ok 1).column)
      = advanceLC (c7ok.line, c7ok.column) (c7ok.blocks c7ok.block c7ok.next) :=
  ⟨(C6_line_column_tracking.1 zeroMem).2.2.1,
   (C6_line_column_tracking.1 zeroMem).2.2.2,
   C6_line_column_tracking.2 c7ok (by decide) (by decide) (by decide)⟩

/-- One `spsps_consume` at an at-EOF parser bumps the EOF counter and
leaves the last-error field `OK` — whatever the counter was, because
`spsps_consume` overwrites `errno` after `spsps_consume_n` returns. -/
theorem c5_orbit (k : Nat) (hk : k ≤ 1000) :
    consumeStep ({ c5base with eof_count := k })
      = { c5base with eof_count := k + 1 } := by
  have hmod : (k + 1) % 65536 = k + 1 := by omega
  by_cases hk1 : k + 1 > 1000
  · have hx : k = 1000 := by omega
    subst hx
    rfl
  · have hae : c5base.at_eof = true := rfl
    have hbl : c5base.blocks c5base.block c5base.next = SPSPS_EOF := rfl
    simp [consumeStep, spsps_consume, spsps_consume_n, spsps_consume_loop,
      SPSPS_LOOK, hmod, hae, hbl, hk1]
    exact ⟨rfl, rfl⟩

/-- Iterating `spsps_consume` from the freshly-at-EOF state just counts. -/
theorem c5_reach : ∀ m, m ≤ 1001 →
    consumeStep^[m] c5base = { c5base with eof_count := m } := by
  intro m
  induction m with
  | zero =>
    intro _
    rfl
  | succ m ih =>
    intro hm
    rw [Function.iterate_succ_apply', ih (by omega)]
    exact c5_orbit m (by omega)

/-- C5: after 1001 consecutive `spsps_consume` calls at EOF — more than
the threshold of 1000 — polling the last-error field reads `OK`, not
`STALLED_AT_EOF`: `spsps_consume` unconditionally stores `OK` after
`spsps_consume_n` has set `STALLED_AT_EOF` (as the third conjunct shows
calling `spsps_consume_n` directly does). -/
theorem C5_consume_overwrites_stalled_errno :
    (consumeStep^[1001] c5base).errno = spsps_errno.OK ∧
    spsps_errno.OK ≠ spsps_errno.STALLED_AT_EOF ∧
    (spsps_consume_n ({ c5base with eof_count := 1000 }) 1).errno
      = spsps_errno.STALLED_AT_EOF := by
  refine ⟨?_, by decide, rfl⟩
  rw [c5_reach 1001 (Nat.le_refl _)]
  rfl

/-- C4: on the input `"\x00a"` the whitespace consumer consumes the NUL
byte — `strchr(" \t\r\n", 0)` finds the haystack's terminator, so the
guard succeeds on a byte outside the whitespace set — and stops at `'a'`:
the cursor has advanced by one although no whitespace was present. -/
theorem C4_consume_whitespace_eats_nul :
    (0 : Nat) ∉ spsps_ws_chars ∧
    remaining c4p 0 = 0 ∧
    (spsps_consume_whitespace c4p).next = c4p.next + 1 ∧
    remaining (spsps_consume_whitespace c4p) 0 = 97 := by
  exact ⟨by decide, rfl, rfl, rfl⟩

end Spsps
